import Mathlib

/-!
Verification development for the `@goodit/evals` metrics pipeline:
a shallow embedding of the collector (`collector.ts`, `measure.ts`),
the aggregation engine (`aggregate.ts`) and the baseline store
(`baseline.ts`), together with theorems settling the specification
claims about them.

JavaScript numbers are modelled by `JsNum`: a finite value is an exact
rational, and the special values `NaN`, `+Infinity`, `-Infinity` are
explicit constructors.  The arithmetic and comparison operations follow
IEEE-754 semantics as implemented by JavaScript (`NaN` is absorbing for
arithmetic and makes every ordering comparison false).  The negative
zero of IEEE-754 is not distinguished from zero; no claim depends on it.
-/

namespace Evals

/-- A JavaScript `number`: an exact finite rational or a special value. -/
inductive JsNum where
  | fin (q : ℚ)
  | nan
  | posInf
  | negInf
  deriving DecidableEq, Repr

namespace JsNum

/-- IEEE addition as performed by JavaScript `+`. -/
def add : JsNum → JsNum → JsNum
  | nan, _ => nan
  | _, nan => nan
  | posInf, negInf => nan
  | negInf, posInf => nan
  | posInf, _ => posInf
  | _, posInf => posInf
  | negInf, _ => negInf
  | _, negInf => negInf
  | fin a, fin b => fin (a + b)

/-- IEEE negation. -/
def neg : JsNum → JsNum
  | nan => nan
  | posInf => negInf
  | negInf => posInf
  | fin a => fin (-a)

/-- IEEE subtraction as performed by JavaScript `-`. -/
def sub (a b : JsNum) : JsNum := add a (neg b)

/-- IEEE multiplication as performed by JavaScript `*`. -/
def mul : JsNum → JsNum → JsNum
  | nan, _ => nan
  | _, nan => nan
  | posInf, posInf => posInf
  | posInf, negInf => negInf
  | negInf, posInf => negInf
  | negInf, negInf => posInf
  | posInf, fin b => if b = 0 then nan else if 0 < b then posInf else negInf
  | fin a, posInf => if a = 0 then nan else if 0 < a then posInf else negInf
  | negInf, fin b => if b = 0 then nan else if 0 < b then negInf else posInf
  | fin a, negInf => if a = 0 then nan else if 0 < a then negInf else posInf
  | fin a, fin b => fin (a * b)

/-- IEEE division as performed by JavaScript `/`. -/
def div : JsNum → JsNum → JsNum
  | nan, _ => nan
  | _, nan => nan
  | posInf, posInf => nan
  | posInf, negInf => nan
  | negInf, posInf => nan
  | negInf, negInf => nan
  | posInf, fin b => if 0 ≤ b then posInf else negInf
  | negInf, fin b => if 0 ≤ b then negInf else posInf
  | fin _, posInf => fin 0
  | fin _, negInf => fin 0
  | fin a, fin b =>
    if b = 0 then (if a = 0 then nan else if 0 < a then posInf else negInf)
    else fin (a / b)

/-- JavaScript `<` (false whenever either operand is `NaN`). -/
def ltb : JsNum → JsNum → Bool
  | nan, _ => false
  | _, nan => false
  | negInf, negInf => false
  | negInf, _ => true
  | _, negInf => false
  | posInf, _ => false
  | fin _, posInf => true
  | fin a, fin b => decide (a < b)

/-- JavaScript `>` (false whenever either operand is `NaN`). -/
def gtb (a b : JsNum) : Bool := ltb b a

/-- JavaScript `>=` (false whenever either operand is `NaN`). -/
def geb : JsNum → JsNum → Bool
  | nan, _ => false
  | _, nan => false
  | posInf, _ => true
  | _, posInf => false
  | negInf, negInf => true
  | negInf, _ => false
  | fin _, negInf => true
  | fin a, fin b => decide (b ≤ a)

/-- JavaScript `=== 0`. -/
def isZero : JsNum → Bool
  | fin a => decide (a = 0)
  | _ => false

/-- JavaScript `Number.isNaN`. -/
def isNaN : JsNum → Bool
  | nan => true
  | _ => false

end JsNum

end Evals

namespace Evals

/-!
## JavaScript object model

JavaScript objects with string keys are modelled as association lists in
insertion order.  `objSet` is property assignment (`obj[k] = v`): it
updates an existing key in place, otherwise appends.  `olookup` is
property access (`obj[k]`).
-/

/-- Property access `obj[k]` (first matching key). -/
def olookup {α : Type} : List (String × α) → String → Option α
  | [], _ => none
  | (k, v) :: rest, key => if k = key then some v else olookup rest key

/-- Property assignment `obj[k] = v`: update in place or append. -/
def objSet {α : Type} : List (String × α) → String → α → List (String × α)
  | [], key, v => [(key, v)]
  | (k, w) :: rest, key, v =>
    if k = key then (k, v) :: rest else (k, w) :: objSet rest key v

/-!
## JavaScript string helpers

JavaScript string operations are modelled on the character lists
underlying `String`, so that every definition evaluates by kernel
reduction on concrete inputs.
-/

/-- Does the second list start with the first? -/
def listStarts : List Char → List Char → Bool
  | [], _ => true
  | _ :: _, [] => false
  | p :: ps, c :: cs => p = c && listStarts ps cs

/-- JS `s.startsWith(p)`. -/
def jsStartsWith (s p : String) : Bool := listStarts p.data s.data

/-- Does the second list end with the first? -/
def listEnds (p cs : List Char) : Bool := listStarts p.reverse cs.reverse

/-- JS `s.endsWith(p)`. -/
def jsEndsWith (s p : String) : Bool := listEnds p.data s.data

/-- JS `s.includes(c)` for a single character. -/
def jsIncludesChar (s : String) (c : Char) : Bool := s.data.contains c

/-- Split a character list on a separator character (JS `s.split(sep)`
for a one-character separator). -/
def splitOnChar (sep : Char) : List Char → List (List Char)
  | [] => [[]]
  | c :: cs =>
    match splitOnChar sep cs with
    | [] => [[]]
    | seg :: rest => if c = sep then [] :: seg :: rest else (c :: seg) :: rest

/-- Join character lists with a separator character (JS `parts.join(sep)`). -/
def joinWithChar (sep : Char) : List (List Char) → List Char
  | [] => []
  | [seg] => seg
  | seg :: rest => seg ++ sep :: joinWithChar sep rest

/-!
## Data model (`types.ts`)
-/

/-- A metric value as stored in `TestMetrics.metrics : Record<string, number | boolean>`. -/
inductive MetricValue where
  | num (x : JsNum)
  | bool (b : Bool)
  deriving DecidableEq, Repr

/-- One scorer result attached to a case record (diagnostic metadata omitted). -/
structure ScorerResult where
  name : String
  score : JsNum
  deriving DecidableEq, Repr

/-- One executed test case record (`TestMetrics` in `types.ts`).  The
optional diagnostic captures `input`/`output`/`expected` are omitted:
no claim mentions them. -/
structure TestMetrics where
  suiteKey : String
  suiteName : String
  testName : String
  metrics : List (String × MetricValue)
  weight : JsNum
  passed : Bool
  scorerResults : List ScorerResult
  deriving DecidableEq, Repr

/-- A `(value, weight)` aggregation entry (`AggregationEntry` in `types.ts`). -/
structure AggregationEntry where
  value : JsNum
  weight : JsNum
  deriving DecidableEq, Repr

/-- Suite configuration: pass threshold and custom aggregation functions. -/
structure SuiteConfig where
  passThreshold : Option JsNum
  aggregations : Option (List (String × (List AggregationEntry → JsNum)))

/-!
## Aggregation engine (`aggregate.ts`)
-/

/-- Metric family classification (`classifyMetric`). -/
inductive MetricKind where
  | latency
  | throughput
  | tokens
  | score
  | error
  | unknown
  deriving DecidableEq, Repr

/-- `classifyMetric` from `aggregate.ts`. -/
def classifyMetric (name : String) : MetricKind :=
  if name = "latency" ∨ jsStartsWith name "ttfb" then .latency
  else if jsStartsWith name "throughput" then .throughput
  else if jsStartsWith name "tokens." then .tokens
  else if jsStartsWith name "score." then .score
  else if name = "error" then .error
  else .unknown

/-- `weightedAvg` from `aggregate.ts`: Σ(value·weight)/Σweight, or 0 when
the total weight compares `=== 0`. -/
def weightedAvg (entries : List AggregationEntry) : JsNum :=
  let sumWeighted := entries.foldl (fun acc e => JsNum.add acc (JsNum.mul e.value e.weight)) (.fin 0)
  let sumWeights := entries.foldl (fun acc e => JsNum.add acc e.weight) (.fin 0)
  if sumWeights.isZero then .fin 0 else JsNum.div sumWeighted sumWeights

/-- `sum` from `aggregate.ts` (unweighted). -/
def sum (entries : List AggregationEntry) : JsNum :=
  entries.foldl (fun acc e => JsNum.add acc e.value) (.fin 0)

/-- `min` from `aggregate.ts`: plain minimum starting from `+Infinity`
(entries whose value is `NaN` never win the `<` comparison). -/
def min (entries : List AggregationEntry) : JsNum :=
  entries.foldl (fun acc e => if JsNum.ltb e.value acc then e.value else acc) .posInf

/-- `weightedRate` from `aggregate.ts` (same formula as `weightedAvg`). -/
def weightedRate (entries : List AggregationEntry) : JsNum :=
  weightedAvg entries

/-- Insert a metric name into the collected set (JS `Set` keeps first
insertion order and ignores duplicates). -/
def addUnique (l : List String) (m : String) : List String :=
  if m ∈ l then l else l ++ [m]

/-- `collectNumericMetricNames` from `aggregate.ts`: distinct names of
metrics whose value is a number, in first-appearance order. -/
def collectNumericMetricNames (tests : List TestMetrics) : List String :=
  tests.foldl
    (fun acc t =>
      t.metrics.foldl
        (fun acc2 p =>
          match p.2 with
          | .num _ => addUnique acc2 p.1
          | .bool _ => acc2)
        acc)
    []

/-- `entriesForMetric` from `aggregate.ts`: one `(value, weight)` entry
per test whose `metrics[metricName]` is a number. -/
def entriesForMetric (tests : List TestMetrics) (metricName : String) :
    List AggregationEntry :=
  tests.filterMap fun t =>
    match olookup t.metrics metricName with
    | some (MetricValue.num x) => some (AggregationEntry.mk x t.weight)
    | _ => none

/-- Aggregation operations (`AggOp`). -/
inductive AggOp where
  | sum
  | avg
  | min
  | count
  | rate
  deriving DecidableEq, Repr

/-- The key suffix of an aggregation operation (the literal used in
`result[`${metric}.${op}`]`). -/
def opName : AggOp → String
  | .sum => "sum"
  | .avg => "avg"
  | .min => "min"
  | .count => "count"
  | .rate => "rate"

/-- `aggregationsForKind` from `aggregate.ts`. -/
def aggregationsForKind : MetricKind → List AggOp
  | .latency => [.sum, .avg]
  | .throughput => [.avg]
  | .tokens => [.sum]
  | .score => [.avg, .min]
  | .error => [.count, .rate]
  | .unknown => []

/-- `computeAgg` from `aggregate.ts`. -/
def computeAgg (op : AggOp) (entries : List AggregationEntry) : JsNum :=
  match op with
  | .sum => sum entries
  | .avg => weightedAvg entries
  | .min => min entries
  | .count => sum entries
  | .rate => weightedRate entries

/-- `metricKeyForCustomAggregation` from `aggregate.ts`: strip the last
dot segment. -/
def metricKeyForCustomAggregation (name : String) : String :=
  if jsIncludesChar name '.' then
    String.mk (joinWithChar '.' ((splitOnChar '.' name.data).dropLast))
  else name

/-- The scan over a case's metric entries inside `buildPassEntries`:
returns `(hasScoreMetric, passed)`, breaking at the first numeric
`score.*` metric that compares `< passThreshold`. -/
def scoreScan (threshold : JsNum) : List (String × MetricValue) → Bool × Bool
  | [] => (false, true)
  | (name, .num x) :: rest =>
    if jsStartsWith name "score." then
      if JsNum.ltb x threshold then (true, false)
      else (true, (scoreScan threshold rest).2)
    else scoreScan threshold rest
  | (_, .bool _) :: rest => scoreScan threshold rest

/-- `buildPassEntries` from `aggregate.ts`. -/
def buildPassEntries (tests : List TestMetrics) (passThreshold : JsNum) :
    List AggregationEntry :=
  tests.map fun t =>
    if !t.passed then ⟨.fin 0, t.weight⟩
    else
      let s := scoreScan passThreshold t.metrics
      ⟨if (if s.1 then s.2 else t.passed) then .fin 1 else .fin 0, t.weight⟩

/-- The entry list the aggregation step actually uses for a metric: the
metric named `error` is special-cased in `aggregateMetrics` to draw one
entry from every test, substituting value 0 for tests lacking a numeric
`error` metric; every other metric uses `entriesForMetric`. -/
def entriesForAggregation (tests : List TestMetrics) (metric : String) :
    List AggregationEntry :=
  if metric = "error" then
    tests.map fun t =>
      match olookup t.metrics "error" with
      | some (MetricValue.num x) => AggregationEntry.mk x t.weight
      | _ => AggregationEntry.mk (.fin 0) t.weight
  else entriesForMetric tests metric

/-- The body of the per-metric loop in `aggregateMetrics`: compute the
family's aggregations for one collected metric name and store them
under `metric.op` keys. -/
def aggregateStep (tests : List TestMetrics) (result : List (String × JsNum))
    (metric : String) : List (String × JsNum) :=
  let ops := aggregationsForKind (classifyMetric metric)
  if ops.isEmpty then result
  else
    let entries := entriesForAggregation tests metric
    if entries.isEmpty then result
    else ops.foldl
      (fun r op => objSet r (metric ++ "." ++ opName op) (computeAgg op entries))
      result

/-- `aggregateMetrics` from `aggregate.ts`. -/
def aggregateMetrics (tests : List TestMetrics) (suiteConfig : Option SuiteConfig) :
    List (String × JsNum) :=
  if tests.isEmpty then
    objSet (objSet [] "test.count" (.fin 0)) "test.pass_rate" (.fin 0)
  else
    let metricNames := collectNumericMetricNames tests
    let step1 := metricNames.foldl (aggregateStep tests) []
    let step2 := objSet step1 "test.count" (.fin tests.length)
    let passThreshold := (suiteConfig.bind (fun c => c.passThreshold)).getD (.fin (1/2))
    let step3 := objSet step2 "test.pass_rate"
      (weightedRate (buildPassEntries tests passThreshold))
    match suiteConfig.bind (fun c => c.aggregations) with
    | none => step3
    | some aggs =>
      aggs.foldl
        (fun r p => objSet r p.1 (p.2 (entriesForMetric tests (metricKeyForCustomAggregation p.1))))
        step3

/-!
## Collector and `measure` (`collector.ts`, `measure.ts`)

The collector's recording operations mutate the active test entry; here
they are explicit entry transformers.  A case body is modelled as an
arbitrary interaction with its active record — a function from the
record to an outcome (normal return or thrown exception) together with
the mutated record — which covers every combination of recording calls
a body can make.
-/

/-- `createTestEntry` from `collector.ts`. -/
def createTestEntry (suiteKey suiteName testName : String) : TestMetrics :=
  { suiteKey := suiteKey, suiteName := suiteName, testName := testName,
    metrics := [], weight := .fin 1, passed := true, scorerResults := [] }

/-- `recordMetric` acting on the active entry. -/
def recordMetric (name : String) (value : JsNum) (entry : TestMetrics) : TestMetrics :=
  { entry with metrics := objSet entry.metrics name (.num value) }

/-- `setTestPassed` acting on the active entry. -/
def setTestPassed (passed : Bool) (entry : TestMetrics) : TestMetrics :=
  { entry with passed := passed }

/-- The outcome of running a case body: normal completion or a thrown
exception. -/
inductive RunOutcome (α ε : Type) where
  | ok (value : α)
  | thrown (err : ε)
  deriving DecidableEq, Repr

/-- `measure` from `measure.ts` wrapping a case body: on a throw it
records `error = 1`, marks the case failed and re-raises; the `finally`
block records the elapsed latency and, when an error occurred, records
`error = 1` (again).  `elapsed` stands for the nondeterministic
`performance.now()` difference. -/
def measureOn {α ε : Type} (elapsed : JsNum)
    (body : TestMetrics → RunOutcome α ε × TestMetrics) (entry : TestMetrics) :
    RunOutcome α ε × TestMetrics :=
  match body entry with
  | (.ok v, e1) => (.ok v, recordMetric "latency" elapsed e1)
  | (.thrown err, e1) =>
    let e2 := setTestPassed false (recordMetric "error" (.fin 1) e1)
    (.thrown err, recordMetric "error" (.fin 1) (recordMetric "latency" elapsed e2))

/-- `Collector.runTest`: create a fresh entry, push it onto the
process-wide result list, then run the body with that entry as the
active record; the outcome (including a thrown exception) propagates to
the caller. -/
def runTest {α ε : Type} (results : List TestMetrics)
    (suiteKey suiteName testName : String)
    (body : TestMetrics → RunOutcome α ε × TestMetrics) :
    RunOutcome α ε × List TestMetrics :=
  let entry := createTestEntry suiteKey suiteName testName
  let r := body entry
  (r.1, results ++ [r.2])

/-!
## Baseline store (`baseline.ts`)
-/

/-- JS `\w` (the regexes use no unicode flag): `[A-Za-z0-9_]`. -/
def isWordChar (c : Char) : Bool :=
  ('a' ≤ c && c ≤ 'z') || ('A' ≤ c && c ≤ 'Z') || ('0' ≤ c && c ≤ '9') || c = '_'

/-- Scan for the regex `^p\b` where the pattern `p` ends in a word
character: the subject must start with `p` and the boundary holds when
the subject ends there or continues with a non-word character. -/
def wbScan : List Char → List Char → Bool
  | [], [] => true
  | [], c :: _ => !isWordChar c
  | _ :: _, [] => false
  | p :: ps, c :: cs => p = c && wbScan ps cs

/-- `/^p\b/.test(s)` for a pattern ending in a word character. -/
def wbTest (p s : String) : Bool := wbScan p.data s.data

/-- `getDefaultTolerance` from `baseline.ts`. -/
def getDefaultTolerance (metricName : String) : JsNum :=
  if wbTest "latency" metricName || (metricName = "ttfb" || jsStartsWith metricName "ttfb.") then
    .fin (1/5)
  else if wbTest "tokens" metricName then .fin (1/10)
  else if wbTest "score" metricName then .fin (1/20)
  else if wbTest "throughput" metricName then .fin (3/20)
  else if wbTest "error" metricName then .fin 0
  else if metricName = "test.pass_rate" then .fin (1/20)
  else if metricName = "test.count" then .fin 0
  else .fin (1/10)

/-- Comparison direction for a metric. -/
inductive Direction where
  | higher
  | lower
  deriving DecidableEq, Repr

/-- `getMetricDirection` from `baseline.ts`. -/
def getMetricDirection (metricName : String) : Direction :=
  if wbTest "score" metricName then .higher
  else if wbTest "throughput" metricName then .higher
  else if metricName = "test.pass_rate" then .higher
  else .lower

/-- A stored baseline metric entry: a bare number, or an explicit record
with its own tolerance and optional direction (`BaselineMetric`). -/
inductive BaselineMetric where
  | bare (x : JsNum)
  | record (value : JsNum) (tolerance : JsNum) (direction : Option Direction)
  deriving DecidableEq, Repr

/-- A metric-name → baseline-entry mapping. -/
abbrev MetricRecord := List (String × BaselineMetric)

/-- `NormalizedMetricBaseline` from `baseline.ts`. -/
structure NormalizedMetricBaseline where
  value : JsNum
  tolerance : JsNum
  direction : Direction
  deriving DecidableEq, Repr

/-- `normalizeMetricBaseline` from `baseline.ts`. -/
def normalizeMetricBaseline (metricName : String) (baselineEntry : BaselineMetric) :
    NormalizedMetricBaseline :=
  match baselineEntry with
  | .bare x =>
    { value := x, tolerance := getDefaultTolerance metricName,
      direction := getMetricDirection metricName }
  | .record v tol dir =>
    { value := v, tolerance := tol,
      direction := dir.getD (getMetricDirection metricName) }

/-- `hasRegression` from `baseline.ts`. -/
def hasRegression (currentValue baselineValue tolerance : JsNum)
    (direction : Direction) : Bool :=
  match direction with
  | .lower => JsNum.gtb currentValue (JsNum.mul baselineValue (JsNum.add (.fin 1) tolerance))
  | .higher => JsNum.ltb currentValue (JsNum.mul baselineValue (JsNum.sub (.fin 1) tolerance))

/-- `ComparisonResult` from `types.ts`. -/
structure ComparisonResult where
  metric : String
  current : JsNum
  baseline : JsNum
  tolerance : JsNum
  change : JsNum
  regressed : Bool
  direction : Direction
  deriving DecidableEq, Repr

/-- `compareMetrics` from `baseline.ts`: one result per baseline metric
that also exists in the current record. -/
def compareMetrics (current : List (String × JsNum)) (baseline : MetricRecord) :
    List ComparisonResult :=
  baseline.filterMap fun p =>
    match olookup current p.1 with
    | none => none
    | some currentValue =>
      let normalized := normalizeMetricBaseline p.1 p.2
      some
        { metric := p.1
          current := currentValue
          baseline := normalized.value
          tolerance := normalized.tolerance
          change :=
            if normalized.value.isZero then .fin 0
            else JsNum.div (JsNum.sub currentValue normalized.value) normalized.value
          regressed := hasRegression currentValue normalized.value
            normalized.tolerance normalized.direction
          direction := normalized.direction }

/-- Split a character list at the first occurrence of `::` (JS
`indexOf("::")` followed by the two `slice` calls). -/
def firstSepSplit : List Char → Option (List Char × List Char)
  | [] => none
  | [_] => none
  | c1 :: c2 :: rest =>
    if c1 = ':' ∧ c2 = ':' then some ([], rest)
    else (firstSepSplit (c2 :: rest)).map fun p => (c1 :: p.1, p.2)

/-- The `looksLikeIdentity` test inside `suiteIdFromSuiteKey`. -/
def looksLikeIdentity (identity : String) : Bool :=
  identity = "<unknown>" || jsIncludesChar identity '/' || jsIncludesChar identity '\\' ||
    jsEndsWith identity ".eval.ts" || jsEndsWith identity ".eval.js"

/-- `suiteIdFromSuiteKey` from `baseline.ts`. -/
def suiteIdFromSuiteKey (suiteKey : String) : String :=
  match firstSepSplit suiteKey.data with
  | none => suiteKey
  | some (pre, post) =>
    if looksLikeIdentity (String.mk pre) then
      if post.length > 0 then String.mk post else suiteKey
    else suiteKey

/-- `_meta` of a baseline document. -/
structure BaselineMeta where
  updatedAt : String
  evalFile : String
  deriving DecidableEq, Repr

/-- One suite's section of a baseline document (`BaselineSuiteData`):
the `_aggregate` entry plus the per-test entries stored beside it. -/
structure BaselineSuiteData where
  aggregate : MetricRecord
  tests : List (String × MetricRecord)
  deriving DecidableEq, Repr

/-- A JSON value stored under `_suites`: an object carrying an
`_aggregate` key, or anything else (dropped by `normalizeSuitesValue`). -/
inductive SuiteEntryVal where
  | data (d : BaselineSuiteData)
  | invalid
  deriving DecidableEq, Repr

/-- A baseline document (`BaselineFile`): the three reserved keys plus
the legacy top-level per-test entries. -/
structure BaselineFile where
  meta : Option BaselineMeta
  aggregate : Option MetricRecord
  suites : Option (List (String × SuiteEntryVal))
  legacy : List (String × MetricRecord)
  deriving DecidableEq, Repr

/-- `RESERVED_BASELINE_KEYS`. -/
def RESERVED_BASELINE_KEYS : List String := ["_meta", "_aggregate", "_suites"]

/-- `baselineTestEntryKey` from `baseline.ts`. -/
def baselineTestEntryKey (testName : String) : String :=
  if testName ∈ RESERVED_BASELINE_KEYS || jsStartsWith testName "@" then "@" ++ testName
  else testName

/-- `buildMetricRecord` from `baseline.ts`: store metrics as plain
numbers, skipping `NaN` values. -/
def buildMetricRecord (metrics : List (String × JsNum)) : MetricRecord :=
  metrics.foldl
    (fun racc p => if p.2.isNaN then racc else objSet racc p.1 (.bare p.2))
    []

/-- `buildSuiteBaselineData` from `baseline.ts`. -/
def buildSuiteBaselineData (aggregates : List (String × JsNum))
    (perTest : List (String × List (String × JsNum))) : BaselineSuiteData :=
  { aggregate := buildMetricRecord aggregates
    tests := perTest.foldl
      (fun acc p => objSet acc (baselineTestEntryKey p.1) (buildMetricRecord p.2)) [] }

/-- `assignLegacySuiteData` from `baseline.ts`: delete every
non-reserved top-level key, then mirror the suite's data into the
legacy top-level fields. -/
def assignLegacySuiteData (target : BaselineFile) (suiteData : BaselineSuiteData) :
    BaselineFile :=
  { target with aggregate := some suiteData.aggregate, legacy := suiteData.tests }

/-- `createBaseMeta` from `baseline.ts`; `now` stands for the
nondeterministic `new Date().toISOString()`. -/
def createBaseMeta (now : String) (evalFileBase : String) : BaselineMeta :=
  { updatedAt := now, evalFile := evalFileBase }

/-- `normalizeSuitesValue` from `baseline.ts`: keep only the `_suites`
entries that are objects carrying an `_aggregate` key. -/
def normalizeSuitesValue (value : Option (List (String × SuiteEntryVal))) :
    List (String × BaselineSuiteData) :=
  match value with
  | none => []
  | some l =>
    l.foldl
      (fun acc p =>
        match p.2 with
        | .data d => objSet acc p.1 d
        | .invalid => acc)
      []

/-- `normalizeSuitesByStableId` from `baseline.ts`: prefer
already-stable keys, then fill the remaining stable ids from legacy
path-qualified keys. -/
def normalizeSuitesByStableId (suites : List (String × BaselineSuiteData)) :
    List (String × BaselineSuiteData) :=
  let pass1 := suites.foldl
    (fun acc p => if suiteIdFromSuiteKey p.1 = p.1 then objSet acc p.1 p.2 else acc)
    []
  suites.foldl
    (fun acc p =>
      let stableId := suiteIdFromSuiteKey p.1
      if olookup acc stableId = none then objSet acc stableId p.2 else acc)
    pass1

/-- `upsertSuiteBaseline` from `baseline.ts`. -/
def upsertSuiteBaseline (now : String) (evalFileBase : String)
    (existing : Option BaselineFile) (suiteKey : String)
    (aggregates : List (String × JsNum))
    (perTest : List (String × List (String × JsNum))) : BaselineFile :=
  let suiteData := buildSuiteBaselineData aggregates perTest
  let stableSuiteId := suiteIdFromSuiteKey suiteKey
  let next : BaselineFile :=
    match existing with
    | some e => { e with meta := some (createBaseMeta now evalFileBase) }
    | none =>
      { meta := some (createBaseMeta now evalFileBase),
        aggregate := some suiteData.aggregate, suites := none, legacy := [] }
  let suites := normalizeSuitesByStableId (normalizeSuitesValue (existing.bind (·.suites)))
  let suites2 := objSet suites stableSuiteId suiteData
  let next2 := { next with suites := some (suites2.map fun p => (p.1, SuiteEntryVal.data p.2)) }
  assignLegacySuiteData next2 suiteData

/-- `resolveSuiteBaseline` from `baseline.ts`: stable-id lookup, then
raw-key lookup, then the legacy single-suite document shape. -/
def resolveSuiteBaseline (baseline : BaselineFile) (suiteKey : String) :
    Option BaselineSuiteData :=
  let stableSuiteId := suiteIdFromSuiteKey suiteKey
  let rawSuites := normalizeSuitesValue baseline.suites
  match (olookup (normalizeSuitesByStableId rawSuites) stableSuiteId).orElse
      (fun _ => olookup rawSuites suiteKey) with
  | some d => some d
  | none =>
    match baseline.aggregate with
    | none => none
    | some agg =>
      some { aggregate := agg,
             tests := baseline.legacy.foldl (fun acc p => objSet acc p.1 p.2) [] }

/-!
## Baseline file location (`getBaselinePath` / `saveBaseline`)

A file path is modelled structurally as the directory components plus
the basename; `node:path`'s `dirname`, `basename` and `join` are the
projections and pairing of this representation.
-/

/-- A file path: directory components plus basename. -/
structure EvalPath where
  dir : List String
  base : String
  deriving DecidableEq, Repr

/-- Does the regex `/\.eval\.\w+$/` match starting exactly here: the
characters are `.eval.` followed by a nonempty run of word characters
reaching the end. -/
def evalSuffixFrom (cs : List Char) : Bool :=
  match cs with
  | '.' :: 'e' :: 'v' :: 'a' :: 'l' :: '.' :: rest => !rest.isEmpty && rest.all isWordChar
  | _ => false

/-- `name.replace(/\.eval\.\w+$/, ".eval.baseline.json")` on the
underlying characters: replace at the leftmost match, or `none` when the
regex does not match. -/
def replaceEvalSuffixData : List Char → Option (List Char)
  | [] => none
  | c :: rest =>
    if evalSuffixFrom (c :: rest) then some (".eval.baseline.json".data)
    else (replaceEvalSuffixData rest).map (c :: ·)

/-- The basename rewrite inside `getBaselinePath`. -/
def replaceEvalSuffix (name : String) : String :=
  match replaceEvalSuffixData name.data with
  | some cs => String.mk cs
  | none => name

/-- `getBaselinePath` from `baseline.ts`. -/
def getBaselinePath (evalFilePath : EvalPath) : EvalPath :=
  { evalFilePath with base := replaceEvalSuffix evalFilePath.base }

/-- `saveBaseline` from `baseline.ts`: the observable effect is the
write target together with the serialized document. -/
def saveBaseline (evalFilePath : EvalPath) (data : BaselineFile) :
    EvalPath × BaselineFile :=
  (getBaselinePath evalFilePath, data)

end Evals


namespace Evals

/-!
## Claim-comparison definitions and sample records

Definitions written from the claims' wording (for refinement
comparison against the source-derived functions above) and concrete
case records used by the theorems below.
-/

/-- The stable-id rule exactly as the claim words it (refinement
comparison definition): whenever the prefix before the first `::` looks
path-qualified, the stable id is the entire remainder after that first
`::` — with no further condition on the remainder. -/
def claimC7StableId (suiteKey : String) : String :=
  match firstSepSplit suiteKey.data with
  | none => suiteKey
  | some (pre, post) =>
    if looksLikeIdentity (String.mk pre) then String.mk post else suiteKey

/-- The `\b` boundary test after position `k`: the name ends there or
continues with a non-word character. -/
def boundaryAfter (k : Nat) (s : String) : Bool :=
  match s.data.drop k with
  | [] => true
  | c :: _ => !isWordChar c

/-- The tolerance table exactly as the claim words it (refinement
comparison definition): plain prefix tests with no word-boundary
requirement. -/
def claimC6Tolerance (n : String) : JsNum :=
  if jsStartsWith n "latency" || jsStartsWith n "ttfb" then .fin (1/5)
  else if jsStartsWith n "tokens" then .fin (1/10)
  else if jsStartsWith n "score" then .fin (1/20)
  else if jsStartsWith n "throughput" then .fin (3/20)
  else if jsStartsWith n "error" then .fin 0
  else if n = "test.pass_rate" then .fin (1/20)
  else if n = "test.count" then .fin 0
  else .fin (1/10)

/-- The amended tolerance table: each name pattern requires a word
boundary after the prefix (the name is exactly the prefix or continues
with a non-word character), and the `ttfb` family requires exactly
`ttfb` or a `ttfb.` prefix. -/
def amendedC6Tolerance (n : String) : JsNum :=
  if (n.data.take 7 = "latency".data && boundaryAfter 7 n) ||
      (n = "ttfb" || n.data.take 5 = "ttfb.".data) then .fin (1/5)
  else if n.data.take 6 = "tokens".data && boundaryAfter 6 n then .fin (1/10)
  else if n.data.take 5 = "score".data && boundaryAfter 5 n then .fin (1/20)
  else if n.data.take 10 = "throughput".data && boundaryAfter 10 n then .fin (3/20)
  else if n.data.take 5 = "error".data && boundaryAfter 5 n then .fin 0
  else if n = "test.pass_rate" then .fin (1/20)
  else if n = "test.count" then .fin 0
  else .fin (1/10)

/-- A case that recorded `error = 1` (and failed). -/
def tErrOne : TestMetrics :=
  { suiteKey := "k", suiteName := "s", testName := "t1",
    metrics := [("error", .num (.fin 1))], weight := .fin 1, passed := false,
    scorerResults := [] }

/-- A case that recorded no metrics at all (and passed). -/
def tPlain : TestMetrics :=
  { suiteKey := "k", suiteName := "s", testName := "t2",
    metrics := [], weight := .fin 1, passed := true, scorerResults := [] }

/-- A case whose `latency` metric is `NaN`. -/
def tLatNaN : TestMetrics :=
  { suiteKey := "k", suiteName := "s", testName := "t",
    metrics := [("latency", .num .nan)], weight := .fin 1, passed := true,
    scorerResults := [] }

/-- A case marked failed although it carries a perfect score. -/
def tFailedHighScore : TestMetrics :=
  { suiteKey := "k", suiteName := "s", testName := "t1",
    metrics := [("score.main", .num (.fin 1))], weight := .fin 1, passed := false,
    scorerResults := [] }

/-- A passing case with a perfect score. -/
def tPassedScore : TestMetrics :=
  { suiteKey := "k", suiteName := "s", testName := "t2",
    metrics := [("score.main", .num (.fin 1))], weight := .fin 1, passed := true,
    scorerResults := [] }

/-- A passing case whose only score metric is `NaN`. -/
def tNaNScore : TestMetrics :=
  { suiteKey := "k", suiteName := "s", testName := "t",
    metrics := [("score.main", .num .nan)], weight := .fin 1, passed := true,
    scorerResults := [] }

/-- The per-case pass judgment exactly as the claim words it
(refinement comparison definition): a case counts 1 iff (a) it has a
numeric `score.*` metric, every such metric is `>=` the threshold and
its passed flag is true, or (b) it has no numeric `score.*` metric and
its passed flag is true. -/
def claimC4PassEntries (tests : List TestMetrics) (th : JsNum) : List AggregationEntry :=
  tests.map fun t =>
    let hasScore := t.metrics.any (fun p => jsStartsWith p.1 "score." &&
      match p.2 with | .num _ => true | .bool _ => false)
    let allGe := t.metrics.all (fun p =>
      match p.2 with
      | .num x => !(jsStartsWith p.1 "score.") || JsNum.geb x th
      | .bool _ => true)
    AggregationEntry.mk
      (if (hasScore && allGe && t.passed) || (!hasScore && t.passed) then .fin 1 else .fin 0)
      t.weight

/-- A legacy path-qualified key whose suite name itself looks
path-qualified (`b/c::d`). -/
def c8k1 : String := "/a/x.eval.ts::b/c::d"

/-- Suite S1's stored data: `score.main = 1`. -/
def c8d1 : BaselineSuiteData :=
  { aggregate := [("score.main", BaselineMetric.bare (.fin 1))], tests := [] }

/-- A baseline document holding only S1. -/
def c8existing : BaselineFile :=
  { meta := none, aggregate := some [("score.main", BaselineMetric.bare (.fin 1))],
    suites := some [(c8k1, SuiteEntryVal.data c8d1)], legacy := [] }

/-- The document after upserting a different suite S2 (stable id
`other`) with `score.main = 0`. -/
def c8updated : BaselineFile :=
  upsertSuiteBaseline "2026-01-01T00:00:00.000Z" "x.eval.ts" (some c8existing)
    "/a/x.eval.ts::other" [("score.main", .fin 0)] []

end Evals

namespace Evals

/-!
## Object-model lemmas
-/

theorem olookup_objSet_self {α : Type} (l : List (String × α)) (k : String) (v : α) :
    olookup (objSet l k v) k = some v := by
  induction l with
  | nil => simp [objSet, olookup]
  | cons hd tl ih =>
    by_cases h : hd.1 = k
    · simp [objSet, olookup, h]
    · simp [objSet, olookup, h, ih]

theorem olookup_objSet_ne {α : Type} (l : List (String × α)) {k key : String}
    (h : k ≠ key) (v : α) : olookup (objSet l k v) key = olookup l key := by
  induction l with
  | nil => simp [objSet, olookup, h]
  | cons hd tl ih =>
    by_cases hh : hd.1 = k
    · simp [objSet, olookup, hh, h]
    · simp only [objSet, olookup, if_neg hh]
      by_cases hk : hd.1 = key <;> simp [hk, ih]

end Evals

namespace Evals

/-!
## C9 — failure semantics of `measure` inside `runTest`
-/

theorem passed_recordMetric (name : String) (v : JsNum) (e : TestMetrics) :
    (recordMetric name v e).passed = e.passed := rfl

/-- C9: for every case whose body throws, the case's record — appended
to the process-wide result list when execution began — is preserved in
the final list with an `error` metric of 1 recorded and its passed flag
set to false, and the exception is re-raised unchanged to the caller. -/
theorem runTest_measure_throw {α ε : Type} (results : List TestMetrics)
    (suiteKey suiteName testName : String) (elapsed : JsNum)
    (body : TestMetrics → RunOutcome α ε × TestMetrics) (err : ε) (e1 : TestMetrics)
    (h : body (createTestEntry suiteKey suiteName testName) = (.thrown err, e1)) :
    (runTest results suiteKey suiteName testName (measureOn elapsed body)).1
        = .thrown err ∧
    ∃ final : TestMetrics,
      (runTest results suiteKey suiteName testName (measureOn elapsed body)).2
          = results ++ [final] ∧
      olookup final.metrics "error" = some (.num (.fin 1)) ∧
      final.passed = false := by
  refine ⟨?_, ?_⟩
  · simp [runTest, measureOn, h]
  · refine ⟨recordMetric "error" (.fin 1) (recordMetric "latency" elapsed
      (setTestPassed false (recordMetric "error" (.fin 1) e1))), ?_, ?_, ?_⟩
    · simp [runTest, measureOn, h]
    · exact olookup_objSet_self _ _ _
    · rfl

/-- Witness for C9 at a concrete throwing body. -/
theorem runTest_measure_throw_witness :
    (runTest ([] : List TestMetrics) "k" "s" "t"
        (measureOn (.fin 5) (fun e => ((.thrown "boom" : RunOutcome Unit String), e)))).1
        = .thrown "boom" ∧
    ∃ final : TestMetrics,
      (runTest ([] : List TestMetrics) "k" "s" "t"
          (measureOn (.fin 5) (fun e => ((.thrown "boom" : RunOutcome Unit String), e)))).2
          = [] ++ [final] ∧
      olookup final.metrics "error" = some (.num (.fin 1)) ∧
      final.passed = false :=
  runTest_measure_throw [] "k" "s" "t" (.fin 5) _ "boom" _ rfl

/-!
## C5 — percent change and the regression rule in `compareMetrics`
-/

/-- C5: for every metric present in both the current and baseline
aggregate records, `compareMetrics` reports a percent change of
`(current - baseline) / baseline` (and 0 when the baseline value is 0)
and sets the regressed flag exactly when `current > baseline * (1 +
tolerance)` for a lower-is-better metric, or `current < baseline * (1 -
tolerance)` for a higher-is-better one; with the default latency
classification (tolerance 0.20, lower-is-better), current 115 against
baseline 100 is not regressed while current 130 is. -/
theorem compareMetrics_change_regressed :
    (∀ (current : List (String × JsNum)) (baseline : MetricRecord)
      (m : String) (be : BaselineMetric) (c : JsNum),
      olookup baseline m = some be → olookup current m = some c →
      ∃ r ∈ compareMetrics current baseline,
        r.metric = m ∧ r.current = c ∧
        r.baseline = (normalizeMetricBaseline m be).value ∧
        r.tolerance = (normalizeMetricBaseline m be).tolerance ∧
        r.direction = (normalizeMetricBaseline m be).direction ∧
        r.change = (if (normalizeMetricBaseline m be).value.isZero then .fin 0
          else JsNum.div (JsNum.sub c (normalizeMetricBaseline m be).value)
            (normalizeMetricBaseline m be).value) ∧
        r.regressed =
          (match (normalizeMetricBaseline m be).direction with
            | .lower => JsNum.gtb c (JsNum.mul (normalizeMetricBaseline m be).value
                (JsNum.add (.fin 1) (normalizeMetricBaseline m be).tolerance))
            | .higher => JsNum.ltb c (JsNum.mul (normalizeMetricBaseline m be).value
                (JsNum.sub (.fin 1) (normalizeMetricBaseline m be).tolerance)))) ∧
    (compareMetrics [("latency", .fin 115)] [("latency", .bare (.fin 100))]).map
        (fun r => r.regressed) = [false] ∧
    (compareMetrics [("latency", .fin 130)] [("latency", .bare (.fin 100))]).map
        (fun r => r.regressed) = [true] := by
  refine ⟨?_, ?_, ?_⟩
  · intro current baseline
    induction baseline with
    | nil => intro m be c hb; simp [olookup] at hb
    | cons hd tl ih =>
      intro m be c hb hc
      by_cases hm : hd.1 = m
      · subst hm
        simp only [olookup, if_pos rfl] at hb
        obtain rfl : hd.2 = be := by injection hb
        refine ⟨⟨hd.1, c, (normalizeMetricBaseline hd.1 hd.2).value,
            (normalizeMetricBaseline hd.1 hd.2).tolerance,
            (if (normalizeMetricBaseline hd.1 hd.2).value.isZero then .fin 0
              else JsNum.div (JsNum.sub c (normalizeMetricBaseline hd.1 hd.2).value)
                (normalizeMetricBaseline hd.1 hd.2).value),
            hasRegression c (normalizeMetricBaseline hd.1 hd.2).value
              (normalizeMetricBaseline hd.1 hd.2).tolerance
              (normalizeMetricBaseline hd.1 hd.2).direction,
            (normalizeMetricBaseline hd.1 hd.2).direction⟩,
          ?_, rfl, rfl, rfl, rfl, rfl, rfl, ?_⟩
        · simp only [compareMetrics, List.filterMap_cons, hc]
          exact List.mem_cons_self _ _
        · simp only [hasRegression]
      · simp only [olookup, if_neg hm] at hb
        obtain ⟨r, hr, hprops⟩ := ih m be c hb hc
        refine ⟨r, ?_, hprops⟩
        simp only [compareMetrics, List.filterMap_cons]
        rcases holk : olookup current hd.1 with _ | cv
        · exact hr
        · exact List.mem_cons_of_mem _ hr
  · simp [compareMetrics, olookup, normalizeMetricBaseline, getDefaultTolerance,
      getMetricDirection, hasRegression, wbTest, wbScan, isWordChar, jsStartsWith,
      listStarts, JsNum.gtb, JsNum.ltb, JsNum.mul, JsNum.add]
    norm_num
  · simp [compareMetrics, olookup, normalizeMetricBaseline, getDefaultTolerance,
      getMetricDirection, hasRegression, wbTest, wbScan, isWordChar, jsStartsWith,
      listStarts, JsNum.gtb, JsNum.ltb, JsNum.mul, JsNum.add]
    norm_num

/-- Witness for C5's quantified part at a concrete record pair. -/
theorem compareMetrics_change_regressed_witness :
    ∃ r ∈ compareMetrics [("latency", JsNum.fin 115)]
        [("latency", BaselineMetric.bare (.fin 100))],
      r.metric = "latency" ∧ r.current = .fin 115 ∧
      r.baseline = (normalizeMetricBaseline "latency" (.bare (.fin 100))).value ∧
      r.tolerance = (normalizeMetricBaseline "latency" (.bare (.fin 100))).tolerance ∧
      r.direction = (normalizeMetricBaseline "latency" (.bare (.fin 100))).direction ∧
      r.change = (if (normalizeMetricBaseline "latency" (.bare (.fin 100))).value.isZero
        then .fin 0
        else JsNum.div (JsNum.sub (.fin 115)
            (normalizeMetricBaseline "latency" (.bare (.fin 100))).value)
          (normalizeMetricBaseline "latency" (.bare (.fin 100))).value) ∧
      r.regressed =
        (match (normalizeMetricBaseline "latency" (.bare (.fin 100))).direction with
          | .lower => JsNum.gtb (.fin 115)
              (JsNum.mul (normalizeMetricBaseline "latency" (.bare (.fin 100))).value
                (JsNum.add (.fin 1)
                  (normalizeMetricBaseline "latency" (.bare (.fin 100))).tolerance))
          | .higher => JsNum.ltb (.fin 115)
              (JsNum.mul (normalizeMetricBaseline "latency" (.bare (.fin 100))).value
                (JsNum.sub (.fin 1)
                  (normalizeMetricBaseline "latency" (.bare (.fin 100))).tolerance))) :=
  compareMetrics_change_regressed.1 [("latency", .fin 115)]
    [("latency", .bare (.fin 100))] "latency" (.bare (.fin 100)) (.fin 115)
    (by simp [olookup]) (by simp [olookup])

end Evals

namespace Evals

/-!
## C10 — `getBaselinePath` on paths without the `.eval.<ext>` suffix
-/

theorem evalSuffixFrom_iff (cs : List Char) :
    evalSuffixFrom cs = true ↔
      ∃ w, cs = '.' :: 'e' :: 'v' :: 'a' :: 'l' :: '.' :: w ∧ w ≠ [] ∧ w.all isWordChar := by
  unfold evalSuffixFrom
  split
  next rest =>
    simp only [Bool.and_eq_true, Bool.not_eq_true']
    constructor
    · rintro ⟨hne, hall⟩
      exact ⟨rest, rfl, by simpa [List.isEmpty_iff] using hne, hall⟩
    · rintro ⟨w, hw, hne, hall⟩
      obtain rfl : rest = w := by simpa using hw
      exact ⟨by simpa [List.isEmpty_iff] using hne, hall⟩
  next hno =>
    refine ⟨fun h => absurd h (by simp), ?_⟩
    rintro ⟨w, hw, hne, hall⟩
    exact ((hno w hw).elim : false = true)

theorem replaceEvalSuffixData_none_iff (cs : List Char) :
    replaceEvalSuffixData cs = none ↔
      ¬ ∃ stem w, cs = stem ++ ('.' :: 'e' :: 'v' :: 'a' :: 'l' :: '.' :: w) ∧
        w ≠ [] ∧ w.all isWordChar := by
  induction cs with
  | nil =>
    refine iff_of_true rfl ?_
    rintro ⟨stem, w, hw, -, -⟩
    exact List.cons_ne_nil _ _ (List.append_eq_nil.mp hw.symm).2
  | cons c rest ih =>
    by_cases hm : evalSuffixFrom (c :: rest) = true
    · obtain ⟨w, hw, hne, hall⟩ := (evalSuffixFrom_iff _).mp hm
      refine iff_of_false ?_ ?_
      · simp [replaceEvalSuffixData, hm]
      · exact fun hno => hno ⟨[], w, by simpa using hw, hne, hall⟩
    · have hred : replaceEvalSuffixData (c :: rest)
          = Option.map (c :: ·) (replaceEvalSuffixData rest) := by
        simp [replaceEvalSuffixData, hm]
      rw [hred, Option.map_eq_none', ih]
      constructor
      · rintro hno ⟨stem, w, hw, hne, hall⟩
        rcases stem with _ | ⟨c', stem'⟩
        · simp only [List.nil_append] at hw
          exact hm ((evalSuffixFrom_iff _).mpr ⟨w, hw, hne, hall⟩)
        · injection hw with h1 h2
          exact hno ⟨stem', w, h2, hne, hall⟩
      · rintro hno ⟨stem', w, hw, hne, hall⟩
        exact hno ⟨c :: stem', w, by simp [hw], hne, hall⟩

/-- C10 (implicit): for every eval file path whose basename does not
match the `.eval.<extension>` suffix pattern, `getBaselinePath` returns
the input path unchanged, so `saveBaseline` for such a path writes the
baseline document over the eval-definition file itself. -/
theorem getBaselinePath_non_eval_fixpoint (fp : EvalPath) (data : BaselineFile)
    (h : ¬ ∃ stem w, fp.base.data = stem ++ ('.' :: 'e' :: 'v' :: 'a' :: 'l' :: '.' :: w) ∧
      w ≠ [] ∧ w.all isWordChar) :
    getBaselinePath fp = fp ∧ saveBaseline fp data = (fp, data) := by
  have hnone : replaceEvalSuffixData fp.base.data = none :=
    (replaceEvalSuffixData_none_iff _).mpr h
  have hb : replaceEvalSuffix fp.base = fp.base := by
    unfold replaceEvalSuffix
    rw [hnone]
  have hpath : getBaselinePath fp = fp := by
    show ({ fp with base := replaceEvalSuffix fp.base } : EvalPath) = fp
    rw [hb]
  exact ⟨hpath, by unfold saveBaseline; rw [hpath]⟩

/-- Witness for C10: a task file (not an `*.eval.*` file) is its own
baseline write target. -/
theorem getBaselinePath_non_eval_fixpoint_witness :
    getBaselinePath ⟨["examples"], "capitals.ts"⟩ = ⟨["examples"], "capitals.ts"⟩ ∧
    saveBaseline ⟨["examples"], "capitals.ts"⟩ ⟨none, none, none, []⟩
      = (⟨["examples"], "capitals.ts"⟩, ⟨none, none, none, []⟩) :=
  getBaselinePath_non_eval_fixpoint ⟨["examples"], "capitals.ts"⟩ ⟨none, none, none, []⟩
    ((replaceEvalSuffixData_none_iff _).mp (by decide))

end Evals

namespace Evals

/-!
## C7 — stable suite id derivation
-/

theorem firstSepSplit_append (identity rest : List Char)
    (hsep : firstSepSplit identity = none)
    (hend : identity.getLast? ≠ some ':') :
    firstSepSplit (identity ++ ':' :: ':' :: rest) = some (identity, rest) := by
  induction identity with
  | nil => simp [firstSepSplit]
  | cons c cs ih =>
    rcases cs with _ | ⟨c2, cs'⟩
    · by_cases hc : c = ':'
      · exact absurd (by simp [hc]) hend
      · simp [firstSepSplit, hc]
    · have hcc : ¬(c = ':' ∧ c2 = ':') := by
        rintro ⟨rfl, rfl⟩
        simp [firstSepSplit] at hsep
      have hsep' : firstSepSplit (c2 :: cs') = none := by
        simp only [firstSepSplit, if_neg hcc, Option.map_eq_none'] at hsep
        exact hsep
      have hend' : (c2 :: cs').getLast? ≠ some ':' := by
        simpa [List.getLast?_cons_cons] using hend
      simp only [List.cons_append]
      rw [firstSepSplit]
      simp only [if_neg hcc]
      rw [show c2 :: (cs' ++ ':' :: ':' :: rest) = (c2 :: cs') ++ ':' :: ':' :: rest from rfl,
        ih hsep' hend']
      rfl

/-- C7 amended: splitting happens at the first `::` only; when the
prefix looks path-qualified and the remainder is non-empty the stable
id is the entire remainder (which may itself contain further `::`);
when the key has no `::`, the prefix does not look path-qualified, or
the remainder is empty, the whole key is the stable id. -/
theorem suiteIdFromSuiteKey_spec (identity rest key : String)
    (hsep : firstSepSplit identity.data = none)
    (hend : identity.data.getLast? ≠ some ':')
    (hkey : firstSepSplit key.data = none) :
    suiteIdFromSuiteKey (identity ++ "::" ++ rest)
      = (if looksLikeIdentity identity ∧ rest ≠ "" then rest
         else identity ++ "::" ++ rest) ∧
    suiteIdFromSuiteKey key = key := by
  constructor
  · have hdata : (identity ++ "::" ++ rest).data
        = identity.data ++ ':' :: ':' :: rest.data := by
      simp [String.data_append]
    unfold suiteIdFromSuiteKey
    rw [hdata, firstSepSplit_append identity.data rest.data hsep hend]
    by_cases hl : looksLikeIdentity identity
    · by_cases hr : rest = ""
      · subst hr
        simp [hl]
      · have hne : rest.data ≠ [] := fun hh => hr (String.ext hh)
        have hlen : 0 < rest.data.length := List.length_pos.mpr hne
        have hlen' : rest.length ≠ 0 := by
          have hsame : rest.length = rest.data.length := rfl
          omega
        simp [hl, hr, hlen, hlen', Nat.pos_iff_ne_zero]
    · simp [hl]
  · unfold suiteIdFromSuiteKey
    rw [hkey]

/-- Counterexample to C7 as stated: for the key `"a/b::"` the prefix
looks path-qualified and the remainder after the first `::` is empty;
the claim makes the stable id that empty remainder, but the code
returns the whole key. -/
theorem suiteIdFromSuiteKey_counterexample :
    suiteIdFromSuiteKey "a/b::" = "a/b::" ∧ claimC7StableId "a/b::" = "" ∧
    suiteIdFromSuiteKey "a/b::" ≠ claimC7StableId "a/b::" := by
  refine ⟨?_, ?_, ?_⟩ <;> decide

/-- Witness for C7's amended theorem at a path-qualified key with a
name containing `::` of its own, plus a plain (separator-free) key. -/
theorem suiteIdFromSuiteKey_spec_witness :
    (suiteIdFromSuiteKey ("/tmp/x.eval.ts" ++ "::" ++ "My Suite::v2")
      = if looksLikeIdentity "/tmp/x.eval.ts" ∧ "My Suite::v2" ≠ "" then "My Suite::v2"
        else "/tmp/x.eval.ts" ++ "::" ++ "My Suite::v2") ∧
    suiteIdFromSuiteKey "plain name" = "plain name" :=
  suiteIdFromSuiteKey_spec "/tmp/x.eval.ts" "My Suite::v2" "plain name"
    (by decide) (by decide) (by decide)

end Evals

namespace Evals

/-!
## C6 — default tolerances by metric-name pattern
-/

theorem listStarts_eq_take (p : List Char) : ∀ s : List Char,
    listStarts p s = decide (s.take p.length = p) := by
  induction p with
  | nil => intro s; simp [listStarts]
  | cons a ps ih =>
    intro s
    cases s with
    | nil => simp [listStarts]
    | cons b bs =>
      by_cases hab : a = b
      · subst hab
        simp [listStarts, ih]
      · simp [listStarts, hab, Ne.symm hab]

theorem wbScan_eq (p : List Char) : ∀ s : List Char,
    wbScan p s = (listStarts p s &&
      (match s.drop p.length with
        | [] => true
        | c :: _ => !isWordChar c)) := by
  induction p with
  | nil => intro s; cases s <;> simp [wbScan, listStarts]
  | cons a ps ih =>
    intro s
    cases s with
    | nil => simp [wbScan, listStarts]
    | cons b bs =>
      by_cases hab : a = b
      · subst hab; simp [wbScan, listStarts, ih]
      · simp [wbScan, listStarts, hab]

theorem wbTest_eq_take (p n : String) :
    wbTest p n = (decide (n.data.take p.data.length = p.data) &&
      boundaryAfter p.data.length n) := by
  unfold wbTest boundaryAfter
  rw [wbScan_eq, listStarts_eq_take]

theorem jsStartsWith_eq_take (n p : String) :
    jsStartsWith n p = decide (n.data.take p.data.length = p.data) := by
  unfold jsStartsWith
  rw [listStarts_eq_take]

/-- C6 amended: the default tolerance used for a bare-number baseline
entry follows the claimed table, but every name pattern is bounded by a
regex word boundary rather than a plain prefix test (`latency\b`,
`tokens\b`, `score\b`, `throughput\b`, `error\b`, and `ttfb` followed
by `.` or the end of the name). -/
theorem getDefaultTolerance_spec (n : String) :
    getDefaultTolerance n = amendedC6Tolerance n := by
  unfold getDefaultTolerance amendedC6Tolerance
  rw [wbTest_eq_take, wbTest_eq_take, wbTest_eq_take, wbTest_eq_take, wbTest_eq_take,
    jsStartsWith_eq_take]
  rfl

/-- Counterexample to C6 as stated: `errors` starts with `error`, so
the claim assigns tolerance 0.00, but the code's `^error\b` regex does
not match (`s` is a word character) and the fallback tolerance 0.10 is
used. -/
theorem getDefaultTolerance_counterexample :
    getDefaultTolerance "errors" = .fin (1/10) ∧
    claimC6Tolerance "errors" = .fin 0 ∧
    getDefaultTolerance "errors" ≠ claimC6Tolerance "errors" := by
  refine ⟨?_, ?_, ?_⟩ <;>
    simp [getDefaultTolerance, claimC6Tolerance, wbTest, wbScan, isWordChar,
      jsStartsWith, listStarts]

end Evals

namespace Evals

/-!
## Aggregation result-key lemmas

Keys written by the per-metric loop have the shape `metric.op`; only
the metric named `error` can write `error.count` or `error.rate`.
-/

theorem append_suffix_split {α : Type} {xs ys zs : List α} (h : xs ++ ys = zs) :
    xs = zs.take (zs.length - ys.length) ∧ ys = zs.drop (zs.length - ys.length) := by
  subst h
  have hl : xs.length + ys.length - ys.length = xs.length := by omega
  constructor
  · rw [List.length_append, hl, List.take_left]
  · rw [List.length_append, hl, List.drop_left]

theorem opKey_forces_error (m : String) (op : AggOp) (key : String)
    (hkey : key = "error.count" ∨ key = "error.rate")
    (h : m ++ "." ++ opName op = key) : m = "error" := by
  have hd : m.data ++ ('.' :: (opName op).data) = key.data := by
    have h2 := congrArg String.data h
    simpa [String.data_append] using h2
  rcases hkey with rfl | rfl <;> cases op <;> simp only [opName] at hd <;>
    first
      | exact String.ext ((append_suffix_split hd).1.trans (by decide))
      | exact absurd (append_suffix_split hd).2 (by decide)

theorem olookup_opsFold_ne (metric key : String) (entries : List AggregationEntry)
    (h : ∀ op : AggOp, metric ++ "." ++ opName op ≠ key) :
    ∀ (ops : List AggOp) (r : List (String × JsNum)),
      olookup (ops.foldl
        (fun r op => objSet r (metric ++ "." ++ opName op) (computeAgg op entries)) r) key
        = olookup r key := by
  intro ops
  induction ops with
  | nil => intro r; rfl
  | cons o os ih =>
    intro r
    rw [List.foldl_cons, ih, olookup_objSet_ne _ (h o)]

theorem olookup_aggregateStep_ne (tests : List TestMetrics) (metric key : String)
    (h : ∀ op : AggOp, metric ++ "." ++ opName op ≠ key)
    (r : List (String × JsNum)) :
    olookup (aggregateStep tests r metric) key = olookup r key := by
  simp only [aggregateStep]
  split
  · rfl
  · split
    · rfl
    · exact olookup_opsFold_ne metric key _ h _ r

theorem olookup_namesFold_ne (tests : List TestMetrics) (key : String) :
    ∀ (names : List String),
      (∀ m ∈ names, ∀ op : AggOp, m ++ "." ++ opName op ≠ key) →
      ∀ acc, olookup (names.foldl (aggregateStep tests) acc) key = olookup acc key := by
  intro names
  induction names with
  | nil => intro _ acc; rfl
  | cons n ns ih =>
    intro h acc
    rw [List.foldl_cons, ih (fun m hm => h m (List.mem_cons_of_mem _ hm)),
      olookup_aggregateStep_ne tests n key (h n (List.mem_cons_self _ _)) acc]

theorem aggregateStep_error (tests : List TestMetrics) (hne : tests ≠ [])
    (acc : List (String × JsNum)) :
    aggregateStep tests acc "error"
      = objSet (objSet acc "error.count" (Evals.sum (entriesForAggregation tests "error")))
          "error.rate" (weightedAvg (entriesForAggregation tests "error")) := by
  have hlen : ¬((entriesForAggregation tests "error").isEmpty = true) := by
    rcases tests with _ | ⟨t, ts⟩
    · exact absurd rfl hne
    · simp [entriesForAggregation]
  unfold aggregateStep
  simp only [show classifyMetric "error" = MetricKind.error from by decide,
    aggregationsForKind]
  rw [if_neg (by decide), if_neg hlen]
  simp only [List.foldl_cons, List.foldl_nil, computeAgg, weightedRate]
  rw [show ("error" ++ "." ++ opName AggOp.count) = "error.count" from by decide,
    show ("error" ++ "." ++ opName AggOp.rate) = "error.rate" from by decide]

end Evals

namespace Evals

theorem olookup_namesFold_error (tests : List TestMetrics) (hne : tests ≠ []) :
    ∀ (names : List String), names.Nodup → "error" ∈ names →
    ∀ acc, olookup (names.foldl (aggregateStep tests) acc) "error.count"
        = some (Evals.sum (entriesForAggregation tests "error")) ∧
      olookup (names.foldl (aggregateStep tests) acc) "error.rate"
        = some (weightedAvg (entriesForAggregation tests "error")) := by
  intro names
  induction names with
  | nil => intro _ he; cases he
  | cons n ns ih =>
    intro hn he acc
    by_cases hne2 : n = "error"
    · subst hne2
      have hnotin : "error" ∉ ns := (List.nodup_cons.mp hn).1
      have hnocount : ∀ m ∈ ns, ∀ op : AggOp, m ++ "." ++ opName op ≠ "error.count" := by
        intro m hm op hk
        exact hnotin (opKey_forces_error m op _ (Or.inl rfl) hk ▸ hm)
      have hnorate : ∀ m ∈ ns, ∀ op : AggOp, m ++ "." ++ opName op ≠ "error.rate" := by
        intro m hm op hk
        exact hnotin (opKey_forces_error m op _ (Or.inr rfl) hk ▸ hm)
      refine ⟨?_, ?_⟩
      · rw [List.foldl_cons, olookup_namesFold_ne tests "error.count" ns hnocount,
          aggregateStep_error tests hne acc,
          olookup_objSet_ne _ (show "error.rate" ≠ "error.count" from by decide),
          olookup_objSet_self]
      · rw [List.foldl_cons, olookup_namesFold_ne tests "error.rate" ns hnorate,
          aggregateStep_error tests hne acc, olookup_objSet_self]
    · have hmem : "error" ∈ ns := by
        rcases List.mem_cons.mp he with h | h
        · exact absurd h.symm hne2
        · exact h
      rw [List.foldl_cons]
      exact ih (List.nodup_cons.mp hn).2 hmem (aggregateStep tests acc n)

theorem addUnique_nodup {l : List String} (h : l.Nodup) (m : String) :
    (addUnique l m).Nodup := by
  unfold addUnique
  split
  · exact h
  · next hmem =>
    rw [List.nodup_append]
    exact ⟨h, List.nodup_singleton m, fun a ha hb => hmem ((List.mem_singleton.mp hb) ▸ ha)⟩

theorem innerFold_nodup (ms : List (String × MetricValue)) :
    ∀ acc : List String, acc.Nodup →
    (ms.foldl (fun acc2 p =>
      match p.2 with
      | .num _ => addUnique acc2 p.1
      | .bool _ => acc2) acc).Nodup := by
  induction ms with
  | nil => intro acc h; exact h
  | cons p rest ih =>
    intro acc h
    rw [List.foldl_cons]
    rcases p with ⟨name, v⟩
    cases v with
    | num x => exact ih _ (addUnique_nodup h name)
    | bool b => exact ih _ h

theorem collectNumericMetricNames_nodup (tests : List TestMetrics) :
    (collectNumericMetricNames tests).Nodup := by
  unfold collectNumericMetricNames
  generalize hacc : ([] : List String) = acc
  have hn : acc.Nodup := hacc ▸ List.nodup_nil
  clear hacc
  induction tests generalizing acc with
  | nil => exact hn
  | cons t rest ih =>
    rw [List.foldl_cons]
    exact ih _ (innerFold_nodup t.metrics acc hn)

theorem olookup_customFold_ne (tests : List TestMetrics) (key : String) :
    ∀ (aggs : List (String × (List AggregationEntry → JsNum))),
      (∀ p ∈ aggs, p.1 ≠ key) →
      ∀ r, olookup (aggs.foldl
          (fun r p => objSet r p.1
            (p.2 (entriesForMetric tests (metricKeyForCustomAggregation p.1)))) r) key
        = olookup r key := by
  intro aggs
  induction aggs with
  | nil => intro _ r; rfl
  | cons p ps ih =>
    intro h r
    rw [List.foldl_cons, ih (fun q hq => h q (List.mem_cons_of_mem _ hq)),
      olookup_objSet_ne _ (h p (List.mem_cons_self _ _))]

end Evals

namespace Evals

/-!
## C2 — entry lists per metric, and the `error` special case
-/

/-- C2 amended: for every metric other than `error` the entry list used
for its statistics has exactly one entry per case carrying the metric as
a numeric value and omits other cases entirely; the metric named
`error` is special-cased: whenever it is aggregated at all, every case
contributes an entry, with value 0 substituted for cases lacking a
numeric `error` metric, and `error.count` / `error.rate` are the sum
and weighted average of that zero-filled list (absent custom
aggregations overriding those keys). -/
theorem aggregateMetrics_error_entries (tests : List TestMetrics) (cfg : Option SuiteConfig)
    (hne : tests ≠ [])
    (herr : "error" ∈ collectNumericMetricNames tests)
    (hagg : ∀ l, cfg.bind (fun c => c.aggregations) = some l →
      ∀ p ∈ l, p.1 ≠ "error.count" ∧ p.1 ≠ "error.rate") :
    (∀ m, m ≠ "error" → entriesForAggregation tests m = entriesForMetric tests m) ∧
    entriesForAggregation tests "error"
      = tests.map (fun t =>
          match olookup t.metrics "error" with
          | some (MetricValue.num x) => AggregationEntry.mk x t.weight
          | _ => AggregationEntry.mk (.fin 0) t.weight) ∧
    olookup (aggregateMetrics tests cfg) "error.count"
      = some (Evals.sum (entriesForAggregation tests "error")) ∧
    olookup (aggregateMetrics tests cfg) "error.rate"
      = some (weightedAvg (entriesForAggregation tests "error")) := by
  have hempty : ¬(tests.isEmpty = true) := fun hh => hne (List.isEmpty_iff.mp hh)
  refine ⟨fun m hm => by simp [entriesForAggregation, hm], by simp [entriesForAggregation], ?_, ?_⟩
  · simp only [aggregateMetrics]
    rw [if_neg hempty]
    rcases hc : cfg.bind (fun c => c.aggregations) with _ | aggs
    · simp only [hc]
      rw [olookup_objSet_ne _ (show "test.pass_rate" ≠ "error.count" from by decide),
        olookup_objSet_ne _ (show "test.count" ≠ "error.count" from by decide)]
      exact (olookup_namesFold_error tests hne _ (collectNumericMetricNames_nodup tests)
        herr []).1
    · simp only [hc]
      rw [olookup_customFold_ne tests "error.count" aggs
          (fun p hp => (hagg aggs hc p hp).1) _,
        olookup_objSet_ne _ (show "test.pass_rate" ≠ "error.count" from by decide),
        olookup_objSet_ne _ (show "test.count" ≠ "error.count" from by decide)]
      exact (olookup_namesFold_error tests hne _ (collectNumericMetricNames_nodup tests)
        herr []).1
  · simp only [aggregateMetrics]
    rw [if_neg hempty]
    rcases hc : cfg.bind (fun c => c.aggregations) with _ | aggs
    · simp only [hc]
      rw [olookup_objSet_ne _ (show "test.pass_rate" ≠ "error.rate" from by decide),
        olookup_objSet_ne _ (show "test.count" ≠ "error.rate" from by decide)]
      exact (olookup_namesFold_error tests hne _ (collectNumericMetricNames_nodup tests)
        herr []).2
    · simp only [hc]
      rw [olookup_customFold_ne tests "error.rate" aggs
          (fun p hp => (hagg aggs hc p hp).2) _,
        olookup_objSet_ne _ (show "test.pass_rate" ≠ "error.rate" from by decide),
        olookup_objSet_ne _ (show "test.count" ≠ "error.rate" from by decide)]
      exact (olookup_namesFold_error tests hne _ (collectNumericMetricNames_nodup tests)
        herr []).2

/-- Counterexample to C2 as stated: with one case carrying `error = 1`
and one case lacking the metric (both weight 1), the entry list the
code uses for `error` zero-fills the second case, so `error.rate` is
1/2; the claim's per-case-carrying entry list would give rate 1. -/
theorem aggregateMetrics_error_entries_counterexample :
    entriesForAggregation [tErrOne, tPlain] "error"
        ≠ entriesForMetric [tErrOne, tPlain] "error" ∧
    olookup (aggregateMetrics [tErrOne, tPlain] none) "error.rate"
        = some (.fin (1/2)) ∧
    weightedAvg (entriesForMetric [tErrOne, tPlain] "error") = .fin 1 ∧
    JsNum.fin (1/2) ≠ JsNum.fin 1 := by
  refine ⟨?_, ?_, ?_, ?_⟩
  · simp [entriesForAggregation, entriesForMetric, tErrOne, tPlain, olookup]
  · simp [aggregateMetrics, aggregateStep, collectNumericMetricNames, addUnique,
      entriesForAggregation, entriesForMetric, olookup, objSet, tErrOne, tPlain,
      classifyMetric, aggregationsForKind, computeAgg, weightedAvg, weightedRate,
      Evals.sum, Evals.min, JsNum.add, JsNum.mul, JsNum.div, JsNum.isZero, JsNum.ltb,
      buildPassEntries, scoreScan, opName, jsStartsWith, listStarts]
    norm_num
  · simp [entriesForMetric, olookup, tErrOne, tPlain, weightedAvg, JsNum.add, JsNum.mul,
      JsNum.div, JsNum.isZero]
  · simp

/-- Witness for C2's amended theorem at the same two-case input. -/
theorem aggregateMetrics_error_entries_witness :
    (∀ m, m ≠ "error" →
      entriesForAggregation [tErrOne, tPlain] m = entriesForMetric [tErrOne, tPlain] m) ∧
    entriesForAggregation [tErrOne, tPlain] "error"
      = [tErrOne, tPlain].map (fun t =>
          match olookup t.metrics "error" with
          | some (MetricValue.num x) => AggregationEntry.mk x t.weight
          | _ => AggregationEntry.mk (.fin 0) t.weight) ∧
    olookup (aggregateMetrics [tErrOne, tPlain] none) "error.count"
      = some (Evals.sum (entriesForAggregation [tErrOne, tPlain] "error")) ∧
    olookup (aggregateMetrics [tErrOne, tPlain] none) "error.rate"
      = some (weightedAvg (entriesForAggregation [tErrOne, tPlain] "error")) :=
  aggregateMetrics_error_entries [tErrOne, tPlain] none (by simp)
    (by simp [collectNumericMetricNames, addUnique, tErrOne, tPlain])
    (by simp)

end Evals

namespace Evals

/-!
## C3 — non-finite metric values in aggregation
-/

/-- C3 amended: the entry lists are filtered only by the JavaScript
`typeof value === "number"` check, which `NaN` and the infinities pass,
so non-finite metric values are included like any other number and
`NaN` can propagate into the returned aggregate record (a sole
`latency = NaN` case yields `latency.sum = NaN`). -/
theorem entriesForMetric_includes_nonfinite (tests : List TestMetrics) (m : String)
    (t : TestMetrics) (x : JsNum) (ht : t ∈ tests)
    (hx : olookup t.metrics m = some (.num x)) :
    AggregationEntry.mk x t.weight ∈ entriesForMetric tests m ∧
    olookup (aggregateMetrics [tLatNaN] none) "latency.sum" = some JsNum.nan := by
  constructor
  · exact List.mem_filterMap.mpr ⟨t, ht, by rw [hx]⟩
  · simp [aggregateMetrics, aggregateStep, collectNumericMetricNames, addUnique,
      entriesForAggregation, entriesForMetric, olookup, objSet, tLatNaN,
      classifyMetric, aggregationsForKind, computeAgg, weightedAvg, weightedRate,
      Evals.sum, Evals.min, JsNum.add, JsNum.mul, JsNum.div, JsNum.isZero, JsNum.ltb,
      buildPassEntries, scoreScan, opName, jsStartsWith, listStarts]

/-- Counterexample to C3 as stated: the `NaN`-valued `latency` metric
is not excluded from the entry list, and the returned aggregate record
contains `latency.sum = NaN`. -/
theorem entriesForMetric_includes_nonfinite_counterexample :
    entriesForMetric [tLatNaN] "latency" = [AggregationEntry.mk JsNum.nan (.fin 1)] ∧
    olookup (aggregateMetrics [tLatNaN] none) "latency.sum" = some JsNum.nan ∧
    JsNum.nan.isNaN = true := by
  refine ⟨?_, ?_, rfl⟩
  · simp [entriesForMetric, olookup, tLatNaN]
  · simp [aggregateMetrics, aggregateStep, collectNumericMetricNames, addUnique,
      entriesForAggregation, entriesForMetric, olookup, objSet, tLatNaN,
      classifyMetric, aggregationsForKind, computeAgg, weightedAvg, weightedRate,
      Evals.sum, Evals.min, JsNum.add, JsNum.mul, JsNum.div, JsNum.isZero, JsNum.ltb,
      buildPassEntries, scoreScan, opName, jsStartsWith, listStarts]

/-- Witness for C3's amended theorem at the `NaN` latency case. -/
theorem entriesForMetric_includes_nonfinite_witness :
    AggregationEntry.mk JsNum.nan tLatNaN.weight ∈ entriesForMetric [tLatNaN] "latency" ∧
    olookup (aggregateMetrics [tLatNaN] none) "latency.sum" = some JsNum.nan :=
  entriesForMetric_includes_nonfinite [tLatNaN] "latency" tLatNaN JsNum.nan
    (by simp) (by simp [tLatNaN, olookup])

end Evals

namespace Evals

/-!
## C4 — `test.pass_rate` semantics
-/

theorem scoreScan_fst (th : JsNum) : ∀ l : List (String × MetricValue),
    (scoreScan th l).1 = l.any (fun p => jsStartsWith p.1 "score." &&
      match p.2 with | .num _ => true | .bool _ => false) := by
  intro l
  induction l with
  | nil => rfl
  | cons p rest ih =>
    rcases p with ⟨name, v⟩
    cases v with
    | num x =>
      by_cases hs : jsStartsWith name "score." = true
      · by_cases hl : JsNum.ltb x th = true <;> simp [scoreScan, hs, hl, ih]
      · simp [scoreScan, hs, ih]
    | bool b => simp [scoreScan, ih]

theorem scoreScan_snd (th : JsNum) : ∀ l : List (String × MetricValue),
    (scoreScan th l).2 = l.all (fun p =>
      match p.2 with
      | .num x => !(jsStartsWith p.1 "score." && JsNum.ltb x th)
      | .bool _ => true) := by
  intro l
  induction l with
  | nil => rfl
  | cons p rest ih =>
    rcases p with ⟨name, v⟩
    cases v with
    | num x =>
      by_cases hs : jsStartsWith name "score." = true
      · by_cases hl : JsNum.ltb x th = true <;> simp [scoreScan, hs, hl, ih]
      · simp [scoreScan, hs, ih]
    | bool b => simp [scoreScan, ih]

/-- The per-case pass judgment of `buildPassEntries`, characterised
without the early-exit scan: a case counts 1 exactly when its own pass
flag is true and no numeric `score.*` metric compares `<` the
threshold. -/
theorem buildPassEntries_eq (tests : List TestMetrics) (th : JsNum) :
    buildPassEntries tests th = tests.map (fun t =>
      AggregationEntry.mk
        (if t.passed && t.metrics.all (fun p =>
            match p.2 with
            | .num x => !(jsStartsWith p.1 "score." && JsNum.ltb x th)
            | .bool _ => true) then .fin 1 else .fin 0)
        t.weight) := by
  unfold buildPassEntries
  apply List.map_congr_left
  intro t _
  by_cases hp : t.passed = true
  · rw [show (!t.passed) = false from by simp [hp]]
    simp only [Bool.false_eq_true, if_false]
    by_cases hany : (scoreScan th t.metrics).1 = true
    · simp only [hany, if_true, scoreScan_snd, hp, Bool.true_and]
    · have hfst : (scoreScan th t.metrics).1 = false := by
        simpa using hany
      have hanyf : t.metrics.any (fun p => jsStartsWith p.1 "score." &&
          match p.2 with | .num _ => true | .bool _ => false) = false := by
        rw [← scoreScan_fst th]
        exact hfst
      have hall : t.metrics.all (fun p =>
          match p.2 with
          | .num x => !(jsStartsWith p.1 "score." && JsNum.ltb x th)
          | .bool _ => true) = true := by
        rw [List.all_eq_true]
        intro p hpmem
        have hnp : ¬((jsStartsWith p.1 "score." &&
            match p.2 with | .num _ => true | .bool _ => false) = true) := by
          intro hcontra
          exact absurd ((List.any_eq_true.mpr ⟨p, hpmem, hcontra⟩).symm.trans hanyf)
            (by simp)
        rcases p with ⟨name, v⟩
        cases v with
        | num x =>
          have hns : jsStartsWith name "score." = false := by
            rcases Bool.eq_false_or_eq_true (jsStartsWith name "score.") with h | h
            · exact absurd (by simp [h]) hnp
            · exact h
          simp [hns]
        | bool b => simp
      rw [hp, hall]
      simp [hfst]
  · have hp2 : t.passed = false := by simpa using hp
    simp [hp2]

/-- C4 amended: `test.pass_rate` is the weighted rate of a per-case
judgment in which a case counts 1 exactly when its own passed flag is
true and none of its numeric `score.*` metrics compares `<` the pass
threshold (a `NaN` score never compares `<`, so it does not fail the
case); a case whose passed flag is false never counts, regardless of
its scores — e.g. one failed case with score 1 plus one passed case,
both weight 1, yield pass rate 0.5.  (Stated for configurations whose
custom aggregations do not override the `test.pass_rate` key.) -/
theorem aggregateMetrics_pass_rate (tests : List TestMetrics) (cfg : Option SuiteConfig)
    (hne : tests ≠ [])
    (hagg : ∀ l, cfg.bind (fun c => c.aggregations) = some l →
      ∀ p ∈ l, p.1 ≠ "test.pass_rate") :
    olookup (aggregateMetrics tests cfg) "test.pass_rate"
      = some (weightedRate (tests.map (fun t =>
          AggregationEntry.mk
            (if t.passed && t.metrics.all (fun p =>
                match p.2 with
                | .num x => !(jsStartsWith p.1 "score." && JsNum.ltb x
                    ((cfg.bind (fun c => c.passThreshold)).getD (.fin (1/2))))
                | .bool _ => true) then .fin 1 else .fin 0)
            t.weight))) ∧
    olookup (aggregateMetrics [tFailedHighScore, tPassedScore] none) "test.pass_rate"
      = some (.fin (1/2)) := by
  constructor
  · have hempty : ¬(tests.isEmpty = true) := fun hh => hne (List.isEmpty_iff.mp hh)
    simp only [aggregateMetrics]
    rw [if_neg hempty]
    rcases hc : cfg.bind (fun c => c.aggregations) with _ | aggs
    · simp only [hc]
      rw [olookup_objSet_self, buildPassEntries_eq]
    · simp only [hc]
      rw [olookup_customFold_ne tests "test.pass_rate" aggs (fun p hp => hagg aggs hc p hp) _,
        olookup_objSet_self, buildPassEntries_eq]
  · simp [aggregateMetrics, aggregateStep, collectNumericMetricNames, addUnique,
      entriesForAggregation, entriesForMetric, olookup, objSet, tFailedHighScore,
      tPassedScore, classifyMetric, aggregationsForKind, computeAgg, weightedAvg,
      weightedRate, Evals.sum, Evals.min, JsNum.add, JsNum.mul, JsNum.div, JsNum.isZero,
      JsNum.ltb, buildPassEntries, scoreScan, opName, jsStartsWith, listStarts]
    norm_num

/-- Counterexample to C4 as stated: a passing case whose only score is
`NaN` counts as a pass in the code (`NaN < threshold` is false), while
the claim's `every score >= threshold` condition is false for `NaN`,
predicting a pass rate of 0; the code yields 1. -/
theorem aggregateMetrics_pass_rate_counterexample :
    olookup (aggregateMetrics [tNaNScore] none) "test.pass_rate" = some (.fin 1) ∧
    weightedRate (claimC4PassEntries [tNaNScore] (.fin (1/2))) = .fin 0 ∧
    JsNum.fin 1 ≠ JsNum.fin 0 := by
  refine ⟨?_, ?_, by simp⟩
  · simp [aggregateMetrics, aggregateStep, collectNumericMetricNames, addUnique,
      entriesForAggregation, entriesForMetric, olookup, objSet, tNaNScore,
      classifyMetric, aggregationsForKind, computeAgg, weightedAvg, weightedRate,
      Evals.sum, Evals.min, JsNum.add, JsNum.mul, JsNum.div, JsNum.isZero, JsNum.ltb,
      buildPassEntries, scoreScan, opName, jsStartsWith, listStarts]
  · simp [claimC4PassEntries, olookup, tNaNScore, weightedRate, weightedAvg, JsNum.add,
      JsNum.mul, JsNum.div, JsNum.isZero, JsNum.geb, jsStartsWith, listStarts]

/-- Witness for C4's amended theorem at the claim's own example pair. -/
theorem aggregateMetrics_pass_rate_witness :
    olookup (aggregateMetrics [tFailedHighScore, tPassedScore] none) "test.pass_rate"
      = some (weightedRate ([tFailedHighScore, tPassedScore].map (fun t =>
          AggregationEntry.mk
            (if t.passed && t.metrics.all (fun p =>
                match p.2 with
                | .num x => !(jsStartsWith p.1 "score." && JsNum.ltb x
                    (((none : Option SuiteConfig).bind (fun c => c.passThreshold)).getD
                      (.fin (1/2))))
                | .bool _ => true) then .fin 1 else .fin 0)
            t.weight))) ∧
    olookup (aggregateMetrics [tFailedHighScore, tPassedScore] none) "test.pass_rate"
      = some (.fin (1/2)) :=
  aggregateMetrics_pass_rate [tFailedHighScore, tPassedScore] none (by simp)
    (by simp)

end Evals

namespace Evals

/-!
## C8 — upserting one suite preserves another
-/

theorem normalizeSuitesByStableId_single (k1 : String) (d1 : BaselineSuiteData) :
    normalizeSuitesByStableId [(k1, d1)] = [(suiteIdFromSuiteKey k1, d1)] := by
  by_cases hk : suiteIdFromSuiteKey k1 = k1
  · simp [normalizeSuitesByStableId, hk, objSet, olookup]
  · simp [normalizeSuitesByStableId, hk, objSet, olookup]

/-- C8 amended: upserting a second suite S2 into a document already
holding suite S1 preserves S1's entry (re-keyed to its stable id) and
`resolve` returns each suite's own data independently — provided the
two stable ids are distinct and each is itself stable under a second
derivation (a stable id that still looks path-qualified, e.g. a suite
name like `b/c::d`, is re-normalized and can shadow this). -/
theorem upsertSuiteBaseline_frame (now base : String) (existing : BaselineFile)
    (k1 k2 : String) (d1 : BaselineSuiteData)
    (agg2 : List (String × JsNum)) (perTest2 : List (String × List (String × JsNum)))
    (hsuites : existing.suites = some [(k1, SuiteEntryVal.data d1)])
    (hfix1 : suiteIdFromSuiteKey (suiteIdFromSuiteKey k1) = suiteIdFromSuiteKey k1)
    (hfix2 : suiteIdFromSuiteKey (suiteIdFromSuiteKey k2) = suiteIdFromSuiteKey k2)
    (hne : suiteIdFromSuiteKey k1 ≠ suiteIdFromSuiteKey k2) :
    olookup (normalizeSuitesValue
        (upsertSuiteBaseline now base (some existing) k2 agg2 perTest2).suites)
        (suiteIdFromSuiteKey k1) = some d1 ∧
    resolveSuiteBaseline (upsertSuiteBaseline now base (some existing) k2 agg2 perTest2) k1
      = some d1 ∧
    resolveSuiteBaseline (upsertSuiteBaseline now base (some existing) k2 agg2 perTest2) k2
      = some (buildSuiteBaselineData agg2 perTest2) := by
  have hupd : upsertSuiteBaseline now base (some existing) k2 agg2 perTest2
      = { meta := some (createBaseMeta now base),
          aggregate := some (buildSuiteBaselineData agg2 perTest2).aggregate,
          suites := some [(suiteIdFromSuiteKey k1, SuiteEntryVal.data d1),
            (suiteIdFromSuiteKey k2,
              SuiteEntryVal.data (buildSuiteBaselineData agg2 perTest2))],
          legacy := (buildSuiteBaselineData agg2 perTest2).tests } := by
    unfold upsertSuiteBaseline assignLegacySuiteData
    rw [show (some existing).bind (fun b => b.suites) = existing.suites from rfl, hsuites,
      show normalizeSuitesValue (some [(k1, SuiteEntryVal.data d1)]) = [(k1, d1)] from rfl,
      normalizeSuitesByStableId_single]
    simp [objSet, hne]
  have hraw : normalizeSuitesValue
      (upsertSuiteBaseline now base (some existing) k2 agg2 perTest2).suites
      = [(suiteIdFromSuiteKey k1, d1),
         (suiteIdFromSuiteKey k2, buildSuiteBaselineData agg2 perTest2)] := by
    rw [hupd]
    simp [normalizeSuitesValue, objSet, hne]
  have hnorm : normalizeSuitesByStableId
      [(suiteIdFromSuiteKey k1, d1),
       (suiteIdFromSuiteKey k2, buildSuiteBaselineData agg2 perTest2)]
      = [(suiteIdFromSuiteKey k1, d1),
         (suiteIdFromSuiteKey k2, buildSuiteBaselineData agg2 perTest2)] := by
    simp [normalizeSuitesByStableId, hfix1, hfix2, hne, Ne.symm hne, objSet, olookup]
  refine ⟨?_, ?_, ?_⟩
  · rw [hraw]
    simp [olookup]
  · unfold resolveSuiteBaseline
    rw [hraw]
    simp only [hnorm]
    simp [olookup, Option.orElse]
  · unfold resolveSuiteBaseline
    rw [hraw]
    simp only [hnorm]
    simp [olookup, hne, Option.orElse]

end Evals

namespace Evals

/-- Counterexample to C8 as stated: S1's suite name `b/c::d` contains a
path separator and `::`, so its stable id re-normalizes to `d` during
resolution; the stable-id and raw-key lookups for S1 both miss, the
legacy fallback fires, and `resolve` returns S2's just-written
aggregate (`score.main = 0`) instead of S1's own (`score.main = 1`). -/
theorem upsertSuiteBaseline_frame_counterexample :
    resolveSuiteBaseline c8updated c8k1
      = some { aggregate := [("score.main", BaselineMetric.bare (.fin 0))], tests := [] } ∧
    resolveSuiteBaseline c8updated c8k1 ≠ some c8d1 := by
  constructor <;> decide

/-- Witness for C8's amended theorem at two ordinarily-named suites in
the same eval file. -/
theorem upsertSuiteBaseline_frame_witness :
    olookup (normalizeSuitesValue
        (upsertSuiteBaseline "now" "x.eval.ts" (some
          { meta := none, aggregate := some [("score.main", BaselineMetric.bare (.fin 1))],
            suites := some [("/a/x.eval.ts::alpha", SuiteEntryVal.data
              { aggregate := [("score.main", BaselineMetric.bare (.fin 1))], tests := [] })],
            legacy := [] })
          "/a/x.eval.ts::beta" [("score.main", .fin 0)] []).suites)
        (suiteIdFromSuiteKey "/a/x.eval.ts::alpha")
      = some { aggregate := [("score.main", BaselineMetric.bare (.fin 1))], tests := [] } ∧
    resolveSuiteBaseline
        (upsertSuiteBaseline "now" "x.eval.ts" (some
          { meta := none, aggregate := some [("score.main", BaselineMetric.bare (.fin 1))],
            suites := some [("/a/x.eval.ts::alpha", SuiteEntryVal.data
              { aggregate := [("score.main", BaselineMetric.bare (.fin 1))], tests := [] })],
            legacy := [] })
          "/a/x.eval.ts::beta" [("score.main", .fin 0)] []) "/a/x.eval.ts::alpha"
      = some { aggregate := [("score.main", BaselineMetric.bare (.fin 1))], tests := [] } ∧
    resolveSuiteBaseline
        (upsertSuiteBaseline "now" "x.eval.ts" (some
          { meta := none, aggregate := some [("score.main", BaselineMetric.bare (.fin 1))],
            suites := some [("/a/x.eval.ts::alpha", SuiteEntryVal.data
              { aggregate := [("score.main", BaselineMetric.bare (.fin 1))], tests := [] })],
            legacy := [] })
          "/a/x.eval.ts::beta" [("score.main", .fin 0)] []) "/a/x.eval.ts::beta"
      = some (buildSuiteBaselineData [("score.main", .fin 0)] []) :=
  upsertSuiteBaseline_frame "now" "x.eval.ts"
    { meta := none, aggregate := some [("score.main", BaselineMetric.bare (.fin 1))],
      suites := some [("/a/x.eval.ts::alpha", SuiteEntryVal.data
        { aggregate := [("score.main", BaselineMetric.bare (.fin 1))], tests := [] })],
      legacy := [] }
    "/a/x.eval.ts::alpha" "/a/x.eval.ts::beta"
    { aggregate := [("score.main", BaselineMetric.bare (.fin 1))], tests := [] }
    [("score.main", .fin 0)] [] rfl (by decide) (by decide) (by decide)

end Evals
